import Mathlib

/-!
Verification of the coupon engine in `src/coupons.py` (Part 3, Coupon
Application).  Money and prices are modelled as rationals, quantities and
timestamps as integers.  A Python dict is modelled as a list of its values
in insertion order (keys are the unique `product_id`s); `dict.get(k, d)`
becomes an `Option` lookup with a default.
-/

/-- One value of the `customer["cart"]` dict: the fields set in
`add_to_cart` / `update_cart_item`.  The stored `subtotal` is a separate
field, exactly as in the source (it equals `quantity * price` only when the
cart was built consistently). -/
structure CartItem where
  product_id : String
  quantity : ℤ
  price : ℚ
  subtotal : ℚ
deriving DecidableEq

/-- `customer["cart"].values()` in insertion order; product_ids are unique
in the source dict. -/
abbrev Cart := List CartItem

/-- `product_id in cart` / `cart[product_id]` (dict lookup by key). -/
def cartLookup (cart : Cart) (pid : String) : Option CartItem :=
  cart.find? (fun item => item.product_id == pid)

/-- `cart_total = sum(item["subtotal"] for item in cart.values())`. -/
def cartTotal (cart : Cart) : ℚ :=
  (cart.map (·.subtotal)).sum

/-- The `details` payload of a coupon document, one variant per coupon
`type` string.  `Option` fields are the keys read with `.get`. -/
inductive CouponDetails where
  | cartWise (threshold : ℚ) (discount_percentage : ℚ) (max_discount : Option ℚ)
  | productWise (product_ids : List String) (discount_percentage : ℚ)
      (min_quantity : Option ℤ)
  | bxgy (buy_products : List String) (buy_quantity : ℤ)
      (get_products : List String) (get_quantity : ℤ)
      (discount_percentage : ℚ) (repetition_limit : Option ℤ)
deriving DecidableEq

/-- A coupon document, restricted to the fields the application logic
reads. -/
structure Coupon where
  coupon_id : String
  details : CouponDetails
  is_active : Bool
  valid_from : ℤ
  valid_until : Option ℤ
  user_tiers : Option (List String)
deriving DecidableEq

/-- Cart-wise evaluation, lines 217-225 and 334-339 of `src/coupons.py`:
discount is `min(cart_total * pct/100, max_discount or inf)` when the
threshold is met, else `0` (the `discount = 0` initialisation). -/
def cartWiseDiscount (total threshold pct : ℚ) (max_discount : Option ℚ) : ℚ :=
  if threshold ≤ total then
    match max_discount with
    | some m => min (total * (pct / 100)) m
    | none => total * (pct / 100)
  else 0

/-- One iteration of the product-wise loop, lines 229-232 and 342-345:
the amount `discount +=` gains for one entry of `product_ids`. -/
def productContrib (cart : Cart) (pct : ℚ) (min_quantity : Option ℤ)
    (pid : String) : ℚ :=
  match cartLookup cart pid with
  | some item =>
      if min_quantity.getD 1 ≤ item.quantity then item.subtotal * (pct / 100)
      else 0
  | none => 0

/-- The full product-wise loop: sum of the contributions over the coupon's
`product_ids` list (iterated as a list, duplicates included). -/
def productWiseDiscount (cart : Cart) (product_ids : List String) (pct : ℚ)
    (min_quantity : Option ℤ) : ℚ :=
  (product_ids.map (productContrib cart pct min_quantity)).sum

/-- Keys of a Python dict built by successive insertion while iterating a
list: the first occurrence of each key wins the position. -/
def firstDedup : List String → List String
  | [] => []
  | p :: ps => p :: (firstDedup ps).filter (fun q => q ≠ p)

/-- One entry of the `eligible_get_products` dict, lines 249-254 and
358-363: the dict key together with the quantity and price read from the
cart.  The dict lookup `eligible_get_products[pid]["quantity"]` done inside
the allocation loop is carried inline as the `quantity` field (keys are
unique, so the lookup returns exactly this value). -/
structure GetCand where
  product_id : String
  quantity : ℤ
  price : ℚ
deriving DecidableEq

/-- The `eligible_get_products` dict in insertion order. -/
def eligibleGetProducts (cart : Cart) (get_products : List String) :
    List GetCand :=
  (firstDedup get_products).filterMap
    (fun pid => (cartLookup cart pid).map
      (fun item => ⟨pid, item.quantity, item.price⟩))

/-- The values of the `eligible_buy_products` dict. -/
def eligibleBuyQuantities (cart : Cart) (buy_products : List String) :
    List ℤ :=
  (firstDedup buy_products).filterMap
    (fun pid => (cartLookup cart pid).map (·.quantity))

/-- Stable insertion step for a sort by a numeric key: the incoming
element (earlier in the original list) is placed before the first element
whose key is not smaller, so elements with equal keys keep their original
relative order — the behaviour of Python's stable `sorted(key=...)`. -/
def keyInsert {α : Type} (k : α → ℚ) (a : α) : List α → List α
  | [] => [a]
  | b :: l => if k a ≤ k b then a :: b :: l else b :: keyInsert k a l

/-- Stable ascending sort by a numeric key; any stable ascending sort by
the same key (in particular Python's Timsort) produces this list. -/
def keySort {α : Type} (k : α → ℚ) : List α → List α
  | [] => []
  | a :: l => keyInsert k a (keySort k l)

/-- `sorted([(pid, price) ...], key=lambda x: x[1])`, lines 270-273 and
379-382: stable ascending sort of the get-candidates by price. -/
def sortGetCands (l : List GetCand) : List GetCand :=
  keySort (fun c => c.price) l

/-- The allocation loop, lines 276-288 and 384-396.  State is
(`units_discounted`, `discount`); the result is the pair after the loop
(including the early `break` once `units_discounted >= total_get_units`). -/
def bxgyAlloc (pct : ℚ) (total_get_units : ℤ) :
    List GetCand → ℤ → ℚ → ℚ × ℤ
  | [], units_discounted, discount => (discount, units_discounted)
  | c :: rest, units_discounted, discount =>
      let units_to_discount := min c.quantity (total_get_units - units_discounted)
      if 0 < units_to_discount then
        let discount' := discount + (units_to_discount : ℚ) * c.price * (pct / 100)
        let units' := units_discounted + units_to_discount
        if total_get_units ≤ units' then (discount', units')
        else bxgyAlloc pct total_get_units rest units' discount'
      else bxgyAlloc pct total_get_units rest units_discounted discount

/-- `buy_units`, lines 258-263 and 367-372.  Python `//` is floor
division, and `if details.get("repetition_limit"):` is a truthiness test:
the cap is applied only when the value is present and nonzero. -/
def buyUnits (cart : Cart) (buy_products : List String) (buy_quantity : ℤ)
    (repetition_limit : Option ℤ) : ℤ :=
  let bu := Int.fdiv (eligibleBuyQuantities cart buy_products).sum buy_quantity
  match repetition_limit with
  | some r => if r ≠ 0 then min bu r else bu
  | none => bu

/-- The whole bxgy branch, lines 238-292 and 347-396: `0` when either
eligibility dict is empty, when `buy_units ≤ 0`, or when the allocation
adds nothing. -/
def bxgyDiscount (cart : Cart) (buy_products : List String) (buy_quantity : ℤ)
    (get_products : List String) (get_quantity : ℤ) (pct : ℚ)
    (repetition_limit : Option ℤ) : ℚ :=
  let eligGet := eligibleGetProducts cart get_products
  if eligibleBuyQuantities cart buy_products ≠ [] ∧ eligGet ≠ [] then
    let bu := buyUnits cart buy_products buy_quantity repetition_limit
    if 0 < bu then
      let total_get_units := bu * get_quantity
      (bxgyAlloc pct total_get_units (sortGetCands eligGet) 0 0).1
    else 0
  else 0

/-- The recomputed discount of `apply_coupon`, dispatching on the coupon
type (lines 331-396); also the value the listing loop assigns to
`calculated_discount`. -/
def couponDiscount (cart : Cart) : CouponDetails → ℚ
  | .cartWise t pct mx => cartWiseDiscount (cartTotal cart) t pct mx
  | .productWise ids pct mq => productWiseDiscount cart ids pct mq
  | .bxgy bp bq gp gq pct rep => bxgyDiscount cart bp bq gp gq pct rep

/-- A coupon together with its `calculated_discount`, as appended to
`applicable_coupons`. -/
structure Decision where
  coupon : Coupon
  calculated_discount : ℚ
deriving DecidableEq

/-- One iteration of the listing loop, lines 213-292: `some` exactly when
the branch appends the coupon.  The cart-wise branch appends whenever the
threshold is met (even for a zero discount); the other two append only
when the discount is positive. -/
def evalCoupon (cart : Cart) (c : Coupon) : Option Decision :=
  match c.details with
  | .cartWise t pct mx =>
      if t ≤ cartTotal cart then
        some ⟨c, cartWiseDiscount (cartTotal cart) t pct mx⟩
      else none
  | .productWise ids pct mq =>
      let d := productWiseDiscount cart ids pct mq
      if 0 < d then some ⟨c, d⟩ else none
  | .bxgy bp bq gp gq pct rep =>
      let d := bxgyDiscount cart bp bq gp gq pct rep
      if 0 < d then some ⟨c, d⟩ else none

/-- `applicable_coupons.sort(key=..., reverse=True)`, line 295: a stable
descending sort by discount, which is the stable ascending sort by the
negated key. -/
def sortDecisions (l : List Decision) : List Decision :=
  keySort (fun d => -d.calculated_discount) l

/-- `get_applicable_coupons`, lines 184-297, taking the cart and the
coupon set the collaborator's query already filtered by activity, validity
window and tier.  Empty cart: early return `[]` (line 192). -/
def get_applicable_coupons (cart : Cart) (coupons : List Coupon) :
    List Decision :=
  if cart = [] then []
  else sortDecisions (coupons.filterMap (evalCoupon cart))

/-- The rejection branches of `apply_coupon` (each an HTTP 400 with the
corresponding message; `notActive` is the joint "not active or not yet
valid" branch). -/
inductive RejectReason where
  | notActive | expired | tierIneligible | emptyCart | notApplicable
  | usageExhausted
deriving DecidableEq

/-- The success payload of `apply_coupon`: the discount summary together
with the updated exclusive-usage counter (`some (u-1)` exactly when the
coupon id is a key of `customer["exclusive_coupons"]`). -/
structure ApplyResult where
  coupon_id : String
  discount_amount : ℚ
  original_total : ℚ
  final_total : ℚ
  new_usage : Option ℤ
deriving DecidableEq

/-- `customer.get("exclusive_coupons", {})[coupon_id]` lookup. -/
def lookupUsage (exclusive : List (String × ℤ)) (cid : String) : Option ℤ :=
  (exclusive.find? (fun p => p.1 == cid)).map (·.2)

/-- `apply_coupon`, lines 299-437, after the NotFound lookups (the
collaborator's concern): the check sequence of lines 310-414 in source
order. -/
def apply_coupon (cart : Cart) (exclusive : List (String × ℤ))
    (tier : String) (now : ℤ) (c : Coupon) :
    Except RejectReason ApplyResult :=
  if ¬ c.is_active ∨ now < c.valid_from then .error .notActive
  else if (c.valid_until.map (fun u => decide (u < now))).getD false then .error .expired
  else if tier ∉ c.user_tiers.getD ["Basic"] then .error .tierIneligible
  else if cart = [] then .error .emptyCart
  else
    let total := cartTotal cart
    let discount := couponDiscount cart c.details
    if discount ≤ 0 then .error .notApplicable
    else
      match lookupUsage exclusive c.coupon_id with
      | some u =>
          if u ≤ 0 then .error .usageExhausted
          else .ok ⟨c.coupon_id, discount, total, total - discount, some (u - 1)⟩
      | none => .ok ⟨c.coupon_id, discount, total, total - discount, none⟩

/-! ### Basic lookup lemmas -/

theorem cartLookup_nil (pid : String) : cartLookup [] pid = none := rfl

theorem cartLookup_cons (item : CartItem) (rest : Cart) (pid : String) :
    cartLookup (item :: rest) pid =
      if item.product_id = pid then some item else cartLookup rest pid := by
  by_cases h : item.product_id = pid
  · simp [cartLookup, List.find?_cons_of_pos, h]
  · simp [cartLookup, List.find?_cons_of_neg, h]

theorem cartLookup_mem {cart : Cart} {pid : String} {item : CartItem}
    (h : cartLookup cart pid = some item) : item ∈ cart :=
  List.mem_of_find?_eq_some h

theorem cartLookup_id {cart : Cart} {pid : String} {item : CartItem}
    (h : cartLookup cart pid = some item) : item.product_id = pid := by
  have := List.find?_some h
  simpa using this

theorem lookupUsage_nil (cid : String) : lookupUsage [] cid = none := rfl

theorem lookupUsage_cons (p : String × ℤ) (rest : List (String × ℤ))
    (cid : String) :
    lookupUsage (p :: rest) cid =
      if p.1 = cid then some p.2 else lookupUsage rest cid := by
  by_cases h : p.1 = cid
  · simp [lookupUsage, List.find?_cons_of_pos, h]
  · simp [lookupUsage, List.find?_cons_of_neg, h]

/-! ### The stable key sort: permutation, sortedness, stability -/

theorem keyInsert_perm {α : Type} (k : α → ℚ) (a : α) (l : List α) :
    (keyInsert k a l).Perm (a :: l) := by
  induction l with
  | nil => simp [keyInsert]
  | cons b t ih =>
      simp only [keyInsert]
      split
      · exact List.Perm.refl _
      · exact (ih.cons b).trans (List.Perm.swap a b t)

theorem keySort_perm {α : Type} (k : α → ℚ) (l : List α) :
    (keySort k l).Perm l := by
  induction l with
  | nil => simp [keySort]
  | cons a t ih => exact (keyInsert_perm k a (keySort k t)).trans (ih.cons a)

theorem keyInsert_mem {α : Type} {k : α → ℚ} {a x : α} {l : List α} :
    x ∈ keyInsert k a l ↔ x = a ∨ x ∈ l := by
  rw [(keyInsert_perm k a l).mem_iff, List.mem_cons]

theorem keyInsert_pairwise {α : Type} {k : α → ℚ} {a : α} {l : List α}
    (hl : l.Pairwise (fun x y => k x ≤ k y)) :
    (keyInsert k a l).Pairwise (fun x y => k x ≤ k y) := by
  induction l with
  | nil => simp [keyInsert]
  | cons b t ih =>
      rcases List.pairwise_cons.mp hl with ⟨hb, ht⟩
      simp only [keyInsert]
      split
      · refine List.pairwise_cons.mpr ⟨?_, hl⟩
        intro x hx
        rcases List.mem_cons.mp hx with rfl | hx
        · assumption
        · exact le_trans (by assumption) (hb x hx)
      · refine List.pairwise_cons.mpr ⟨?_, ih ht⟩
        intro x hx
        rcases keyInsert_mem.mp hx with rfl | hx
        · exact le_of_not_le (by assumption)
        · exact hb x hx

theorem keySort_pairwise {α : Type} (k : α → ℚ) (l : List α) :
    (keySort k l).Pairwise (fun x y => k x ≤ k y) := by
  induction l with
  | nil => simp [keySort]
  | cons a t ih => exact keyInsert_pairwise ih

theorem keyInsert_filter {α : Type} (k : α → ℚ) (v : ℚ) (p : α → Bool)
    (hp : ∀ x, p x = true ↔ k x = v) (a : α) (l : List α) :
    (keyInsert k a l).filter p =
      if p a then a :: l.filter p else l.filter p := by
  induction l with
  | nil => by_cases hpa : p a <;> simp [keyInsert, List.filter_cons, hpa]
  | cons b t ih =>
      simp only [keyInsert]
      split
      · by_cases hpa : p a <;> simp [List.filter_cons, hpa]
      · rename_i hab
        by_cases hpa : p a
        · have hpb : ¬ p b = true := by
            intro hpb
            exact hab (le_of_eq (((hp a).mp hpa).trans (((hp b).mp hpb)).symm))
          simp [List.filter_cons, hpa, hpb, ih]
        · simp [List.filter_cons, ih, hpa]

theorem keySort_filter {α : Type} (k : α → ℚ) (v : ℚ) (p : α → Bool)
    (hp : ∀ x, p x = true ↔ k x = v) (l : List α) :
    (keySort k l).filter p = l.filter p := by
  induction l with
  | nil => simp [keySort]
  | cons a t ih =>
      simp only [keySort, keyInsert_filter k v p hp, List.filter_cons, ih]

/-! ### Allocation loop invariants and bounds -/

theorem bxgyAlloc_units (pct : ℚ) (tg : ℤ) (cs : List GetCand) :
    ∀ ud : ℤ, ∀ d : ℚ, ud ≤ tg →
      (bxgyAlloc pct tg cs ud d).2 ≤ tg ∧ ud ≤ (bxgyAlloc pct tg cs ud d).2 := by
  induction cs with
  | nil => intro ud d h; simpa [bxgyAlloc] using h
  | cons c rest ih =>
      intro ud d h
      simp only [bxgyAlloc]
      have h1 : min c.quantity (tg - ud) ≤ tg - ud := min_le_right _ _
      split
      · rename_i hpos
        split
        · exact ⟨by omega, by omega⟩
        · have hrec := ih (ud + min c.quantity (tg - ud))
            (d + ((min c.quantity (tg - ud) : ℤ) : ℚ) * c.price * (pct / 100)) (by omega)
          exact ⟨hrec.1, by omega⟩
      · exact ih ud d h

theorem bxgyAlloc_discount_le (pct : ℚ) (tg : ℤ) (hpct : 0 ≤ pct) :
    ∀ cs : List GetCand, (∀ c ∈ cs, 0 ≤ c.quantity ∧ 0 ≤ c.price) →
    ∀ ud : ℤ, ∀ d : ℚ,
      (bxgyAlloc pct tg cs ud d).1 ≤
        d + (cs.map (fun c => (c.quantity : ℚ) * c.price * (pct / 100))).sum := by
  have hq100 : (0:ℚ) ≤ pct / 100 := by positivity
  intro cs
  induction cs with
  | nil => intro _ ud d; simp [bxgyAlloc]
  | cons c rest ih =>
      intro hq ud d
      have hc := hq c (List.mem_cons_self c rest)
      have hrest : ∀ x ∈ rest, 0 ≤ x.quantity ∧ 0 ≤ x.price :=
        fun x hx => hq x (List.mem_cons_of_mem c hx)
      have hsum : (0:ℚ) ≤ (rest.map (fun x => (x.quantity : ℚ) * x.price * (pct / 100))).sum := by
        apply List.sum_nonneg
        intro y hy
        obtain ⟨x, hx, rfl⟩ := List.mem_map.mp hy
        have hx' := hrest x hx
        exact mul_nonneg (mul_nonneg (by exact_mod_cast hx'.1) hx'.2) hq100
      have hcterm : (0:ℚ) ≤ (c.quantity : ℚ) * c.price * (pct / 100) :=
        mul_nonneg (mul_nonneg (by exact_mod_cast hc.1) hc.2) hq100
      simp only [bxgyAlloc, List.map_cons, List.sum_cons]
      split
      · rename_i hpos
        have h1 : ((min c.quantity (tg - ud) : ℤ) : ℚ) ≤ (c.quantity : ℚ) := by
          exact_mod_cast min_le_left c.quantity (tg - ud)
        have h2 : ((min c.quantity (tg - ud) : ℤ) : ℚ) * c.price * (pct / 100) ≤
            (c.quantity : ℚ) * c.price * (pct / 100) :=
          mul_le_mul_of_nonneg_right (mul_le_mul_of_nonneg_right h1 hc.2) hq100
        split
        · simp only
          linarith
        · have hrec := ih hrest (ud + min c.quantity (tg - ud))
            (d + ((min c.quantity (tg - ud) : ℤ) : ℚ) * c.price * (pct / 100))
          linarith
      · have hrec := ih hrest ud d
        linarith

/-! ### Well-formed carts and coupons, and the discount-vs-total bounds -/

/-- A cart as the collaborator builds it: stored subtotal is
`quantity * price`, quantities and prices are nonnegative, and the dict
keys (product ids) are distinct. -/
def WFCart (cart : Cart) : Prop :=
  (∀ item ∈ cart, item.subtotal = (item.quantity : ℚ) * item.price ∧
      0 ≤ item.quantity ∧ 0 ≤ item.price) ∧
  (cart.map (·.product_id)).Nodup

/-- The data-model invariant of the spec on a coupon payload:
`discount_percentage ∈ (0,100]` and duplicate-free product lists. -/
def WFDetails : CouponDetails → Prop
  | .cartWise _ pct _ => 0 < pct ∧ pct ≤ 100
  | .productWise ids pct _ => (0 < pct ∧ pct ≤ 100) ∧ ids.Nodup
  | .bxgy bp _ gp _ pct _ => (0 < pct ∧ pct ≤ 100) ∧ bp.Nodup ∧ gp.Nodup

theorem WFCart.total_nonneg {cart : Cart} (h : WFCart cart) :
    0 ≤ cartTotal cart := by
  apply List.sum_nonneg
  intro x hx
  obtain ⟨item, hitem, rfl⟩ := List.mem_map.mp hx
  have hi := h.1 item hitem
  rw [hi.1]
  exact mul_nonneg (by exact_mod_cast hi.2.1) hi.2.2

theorem firstDedup_nodup (l : List String) : (firstDedup l).Nodup := by
  induction l with
  | nil => simp [firstDedup]
  | cons p ps ih =>
      simp only [firstDedup, List.nodup_cons]
      constructor
      · intro hmem
        have := (List.mem_filter.mp hmem).2
        simp at this
      · exact ih.filter _

/-- Distinct product ids looked up in a well-formed cart pick out distinct
cart lines, so the sum of their stored subtotals is at most the cart
total. -/
theorem sum_lookup_subtotal_le {cart : Cart} (hw : WFCart cart)
    {pids : List String} (hn : pids.Nodup) :
    ((pids.filterMap (cartLookup cart)).map (·.subtotal)).sum ≤
      cartTotal cart := by
  have hsubset : ∀ it ∈ pids.filterMap (cartLookup cart), it ∈ cart := by
    intro it hit
    obtain ⟨pid, _, hfind⟩ := List.mem_filterMap.mp hit
    exact cartLookup_mem hfind
  have hnodup : (pids.filterMap (cartLookup cart)).Nodup := by
    refine List.Nodup.filterMap ?_ hn
    intro a a' b hb hb'
    rw [Option.mem_def] at hb hb'
    rw [← cartLookup_id hb, ← cartLookup_id hb']
  have hsub : List.Subperm (pids.filterMap (cartLookup cart)) cart :=
    hnodup.subperm hsubset
  obtain ⟨l, hperm, hsl⟩ := hsub
  calc ((pids.filterMap (cartLookup cart)).map (·.subtotal)).sum
      = (l.map (·.subtotal)).sum := ((hperm.map (·.subtotal)).sum_eq).symm
    _ ≤ (cart.map (·.subtotal)).sum := by
        apply List.Sublist.sum_le_sum (hsl.map (·.subtotal))
        intro a ha
        obtain ⟨item, hitem, rfl⟩ := List.mem_map.mp ha
        have hi := hw.1 item hitem
        rw [hi.1]
        exact mul_nonneg (by exact_mod_cast hi.2.1) hi.2.2
    _ = cartTotal cart := rfl

theorem cartWiseDiscount_le_total {cart : Cart} (hw : WFCart cart)
    {t pct : ℚ} (hpct : 0 < pct ∧ pct ≤ 100) (mx : Option ℚ) :
    cartWiseDiscount (cartTotal cart) t pct mx ≤ cartTotal cart := by
  have htot := hw.total_nonneg
  have hmul : cartTotal cart * (pct / 100) ≤ cartTotal cart := by
    calc cartTotal cart * (pct / 100) ≤ cartTotal cart * 1 := by
          apply mul_le_mul_of_nonneg_left _ htot
          linarith
      _ = cartTotal cart := mul_one _
  unfold cartWiseDiscount
  split
  · match mx with
    | some m => exact le_trans (min_le_left _ _) hmul
    | none => exact hmul
  · exact htot

/-- The per-product contribution of one id is at most the stored subtotal
of the looked-up line (or `0` when absent). -/
theorem productContrib_le {cart : Cart} (hw : WFCart cart) {pct : ℚ}
    (hpct : 0 < pct ∧ pct ≤ 100) (mq : Option ℤ) (pid : String) :
    productContrib cart pct mq pid ≤
      ((cartLookup cart pid).map (·.subtotal)).getD 0 := by
  unfold productContrib
  cases hfind : cartLookup cart pid with
  | none => simp
  | some item =>
      simp only [Option.map_some, Option.getD_some]
      have hi := hw.1 item (cartLookup_mem hfind)
      have hs : 0 ≤ item.subtotal := by
        rw [hi.1]
        exact mul_nonneg (by exact_mod_cast hi.2.1) hi.2.2
      split
      · calc item.subtotal * (pct / 100) ≤ item.subtotal * 1 := by
              apply mul_le_mul_of_nonneg_left _ hs
              linarith
          _ = item.subtotal := mul_one _
      · exact hs

theorem sum_lookup_getD_eq (cart : Cart) (pids : List String) :
    (pids.map (fun pid => ((cartLookup cart pid).map (·.subtotal)).getD 0)).sum =
      ((pids.filterMap (cartLookup cart)).map (·.subtotal)).sum := by
  induction pids with
  | nil => simp
  | cons p ps ih =>
      cases hfind : cartLookup cart p <;>
        simp [List.filterMap_cons, hfind, ih]

theorem productWiseDiscount_le_total {cart : Cart} (hw : WFCart cart)
    {ids : List String} (hids : ids.Nodup) {pct : ℚ}
    (hpct : 0 < pct ∧ pct ≤ 100) (mq : Option ℤ) :
    productWiseDiscount cart ids pct mq ≤ cartTotal cart := by
  calc productWiseDiscount cart ids pct mq
      ≤ (ids.map (fun pid => ((cartLookup cart pid).map (·.subtotal)).getD 0)).sum := by
        apply List.sum_le_sum
        intro pid _
        exact productContrib_le hw hpct mq pid
    _ = ((ids.filterMap (cartLookup cart)).map (·.subtotal)).sum :=
        sum_lookup_getD_eq cart ids
    _ ≤ cartTotal cart := sum_lookup_subtotal_le hw hids

theorem eligibleGetProducts_mem_wf {cart : Cart}
    {gp : List String} {c : GetCand} (hc : c ∈ eligibleGetProducts cart gp) :
    ∃ item ∈ cart, c.quantity = item.quantity ∧ c.price = item.price := by
  obtain ⟨pid, _, hfind⟩ := List.mem_filterMap.mp hc
  obtain ⟨item, hfind', rfl⟩ := Option.map_eq_some.mp hfind
  exact ⟨item, cartLookup_mem hfind', rfl, rfl⟩

theorem bxgyDiscount_le_total {cart : Cart} (hw : WFCart cart)
    (bp : List String) (bq : ℤ) (gp : List String) (gq : ℤ) {pct : ℚ}
    (hpct : 0 < pct ∧ pct ≤ 100) (rep : Option ℤ) :
    bxgyDiscount cart bp bq gp gq pct rep ≤ cartTotal cart := by
  have htot := hw.total_nonneg
  have hq100 : (0:ℚ) ≤ pct / 100 := div_nonneg (le_of_lt hpct.1) (by norm_num)
  simp only [bxgyDiscount]
  split
  · split
    · -- the allocation runs; bound it by the candidates' value
      set eligGet := eligibleGetProducts cart gp with hElig
      have hmem : ∀ c ∈ sortGetCands eligGet, 0 ≤ c.quantity ∧ 0 ≤ c.price := by
        intro c hc
        have hc' : c ∈ eligGet := ((keySort_perm _ eligGet).mem_iff).mp hc
        obtain ⟨item, hitem, hcq, hcp⟩ := eligibleGetProducts_mem_wf hc'
        have hi := hw.1 item hitem
        exact ⟨hcq ▸ hi.2.1, hcp ▸ hi.2.2⟩
      have halloc := bxgyAlloc_discount_le pct
        (buyUnits cart bp bq rep * gq) (le_of_lt hpct.1)
        (sortGetCands eligGet) hmem 0 0
      have hpermsum :
          ((sortGetCands eligGet).map
            (fun c => (c.quantity : ℚ) * c.price * (pct / 100))).sum =
          (eligGet.map (fun c => (c.quantity : ℚ) * c.price * (pct / 100))).sum :=
        ((keySort_perm _ eligGet).map _).sum_eq
      have hmapeq :
          (eligGet.map (fun c => (c.quantity : ℚ) * c.price * (pct / 100))).sum =
          (((firstDedup gp).filterMap (cartLookup cart)).map
            (fun it => (it.quantity : ℚ) * it.price * (pct / 100))).sum := by
        rw [hElig]
        unfold eligibleGetProducts
        rw [List.map_filterMap, List.map_filterMap]
        have hfun : ∀ pid : String,
            Option.map (fun c : GetCand => (c.quantity : ℚ) * c.price * (pct / 100))
              ((cartLookup cart pid).map
                (fun item => (⟨pid, item.quantity, item.price⟩ : GetCand))) =
            (cartLookup cart pid).map
              (fun it => (it.quantity : ℚ) * it.price * (pct / 100)) := by
          intro pid
          cases cartLookup cart pid <;> simp
        simp only [hfun]
      have hsum_le :
          (((firstDedup gp).filterMap (cartLookup cart)).map
            (fun it => (it.quantity : ℚ) * it.price * (pct / 100))).sum ≤
          (((firstDedup gp).filterMap (cartLookup cart)).map (·.subtotal)).sum := by
        apply List.sum_le_sum
        intro it hit
        obtain ⟨pid, _, hfind⟩ := List.mem_filterMap.mp hit
        have hi := hw.1 it (cartLookup_mem hfind)
        have hqp : (0:ℚ) ≤ (it.quantity : ℚ) * it.price :=
          mul_nonneg (by exact_mod_cast hi.2.1) hi.2.2
        calc (it.quantity : ℚ) * it.price * (pct / 100)
            ≤ (it.quantity : ℚ) * it.price * 1 := by
              apply mul_le_mul_of_nonneg_left _ hqp
              linarith
          _ = (it.quantity : ℚ) * it.price := mul_one _
          _ = it.subtotal := hi.1.symm
      calc (bxgyAlloc pct (buyUnits cart bp bq rep * gq) (sortGetCands eligGet) 0 0).1
          ≤ 0 + ((sortGetCands eligGet).map
              (fun c => (c.quantity : ℚ) * c.price * (pct / 100))).sum := halloc
        _ = (eligGet.map (fun c => (c.quantity : ℚ) * c.price * (pct / 100))).sum := by
            rw [zero_add, hpermsum]
        _ ≤ (((firstDedup gp).filterMap (cartLookup cart)).map (·.subtotal)).sum := by
            rw [hmapeq]; exact hsum_le
        _ ≤ cartTotal cart := sum_lookup_subtotal_le hw (firstDedup_nodup gp)
    · exact htot
  · exact htot

/-- All three strategies: under the spec's data-model invariants the
recomputed discount never exceeds the cart total. -/
theorem couponDiscount_le_total {cart : Cart} (hw : WFCart cart)
    {d : CouponDetails} (hd : WFDetails d) :
    couponDiscount cart d ≤ cartTotal cart := by
  match d with
  | .cartWise t pct mx => exact cartWiseDiscount_le_total hw hd mx
  | .productWise ids pct mq => exact productWiseDiscount_le_total hw hd.2 hd.1 mq
  | .bxgy bp bq gp gq pct rep => exact bxgyDiscount_le_total hw bp bq gp gq hd.1 rep

/-! ### Characterising `apply_coupon` -/

/-- The checks of `apply_coupon` that precede the cart and discount logic
(lines 310-321): active, inside the validity window, tier eligible. -/
def passesPreChecks (tier : String) (now : ℤ) (c : Coupon) : Prop :=
  c.is_active = true ∧ c.valid_from ≤ now ∧
    (c.valid_until.map (fun u => decide (u < now))).getD false = false ∧
    tier ∈ c.user_tiers.getD ["Basic"]

theorem apply_coupon_ok {cart : Cart} {excl : List (String × ℤ)}
    {tier : String} {now : ℤ} {c : Coupon} {r : ApplyResult}
    (h : apply_coupon cart excl tier now c = .ok r) :
    r.discount_amount = couponDiscount cart c.details ∧
    r.original_total = cartTotal cart ∧
    r.final_total = cartTotal cart - couponDiscount cart c.details ∧
    0 < couponDiscount cart c.details ∧
    cart ≠ [] ∧
    r.new_usage = (lookupUsage excl c.coupon_id).map (fun u => u - 1) ∧
    (∀ u, lookupUsage excl c.coupon_id = some u → 0 < u) := by
  unfold apply_coupon at h
  split at h
  · cases h
  split at h
  · cases h
  split at h
  · cases h
  split at h
  · cases h
  rename_i hact huntil htier hcart
  simp only at h
  split at h
  · cases h
  rename_i hdisc
  split at h
  · rename_i u hu
    split at h
    · cases h
    · rename_i hupos
      cases h
      refine ⟨rfl, rfl, rfl, by linarith [not_le.mp hdisc], hcart, ?_, ?_⟩
      · rw [hu]; rfl
      · intro u' hu'
        rw [hu] at hu'
        cases hu'
        omega
  · rename_i hu
    cases h
    refine ⟨rfl, rfl, rfl, by linarith [not_le.mp hdisc], hcart, ?_, ?_⟩
    · rw [hu]; rfl
    · intro u' hu'
      rw [hu] at hu'
      cases hu'

theorem apply_coupon_usage_exhausted {cart : Cart} {excl : List (String × ℤ)}
    {tier : String} {now : ℤ} {c : Coupon} {u : ℤ}
    (hpre : passesPreChecks tier now c) (hcart : cart ≠ [])
    (hdisc : 0 < couponDiscount cart c.details)
    (hu : lookupUsage excl c.coupon_id = some u) (hexh : u ≤ 0) :
    apply_coupon cart excl tier now c = .error .usageExhausted := by
  obtain ⟨hact, hfrom, huntil, htier⟩ := hpre
  unfold apply_coupon
  rw [if_neg (by simp [hact]; omega), if_neg (by simp [huntil]),
    if_neg (by simp [htier]), if_neg hcart]
  simp only [hu]
  rw [if_neg (by linarith)]
  rw [if_pos hexh]

theorem apply_coupon_empty_cart {excl : List (String × ℤ)}
    {tier : String} {now : ℤ} {c : Coupon}
    (hpre : passesPreChecks tier now c) :
    apply_coupon [] excl tier now c = .error .emptyCart := by
  obtain ⟨hact, hfrom, huntil, htier⟩ := hpre
  unfold apply_coupon
  rw [if_neg (by simp [hact]; omega), if_neg (by simp [huntil]),
    if_neg (by simp [htier]), if_pos rfl]

theorem apply_coupon_empty_cart_never_ok (excl : List (String × ℤ))
    (tier : String) (now : ℤ) (c : Coupon) (r : ApplyResult) :
    apply_coupon [] excl tier now c ≠ .ok r := by
  intro h
  exact (apply_coupon_ok h).2.2.2.2.1 rfl

/-! ### Listing-side lemmas -/

theorem get_applicable_coupons_perm (cart : Cart) (coupons : List Coupon)
    (hcart : cart ≠ []) :
    (get_applicable_coupons cart coupons).Perm
      (coupons.filterMap (evalCoupon cart)) := by
  unfold get_applicable_coupons sortDecisions
  rw [if_neg hcart]
  exact keySort_perm _ _

theorem get_applicable_coupons_sorted (cart : Cart) (coupons : List Coupon) :
    (get_applicable_coupons cart coupons).Pairwise
      (fun a b => b.calculated_discount ≤ a.calculated_discount) := by
  unfold get_applicable_coupons sortDecisions
  split
  · simp
  · exact (keySort_pairwise _ _).imp (fun h => by simpa using h)

theorem get_applicable_coupons_stable (cart : Cart) (coupons : List Coupon)
    (hcart : cart ≠ []) (v : ℚ) :
    (get_applicable_coupons cart coupons).filter
        (fun d => d.calculated_discount == v) =
      (coupons.filterMap (evalCoupon cart)).filter
        (fun d => d.calculated_discount == v) := by
  unfold get_applicable_coupons sortDecisions
  rw [if_neg hcart]
  exact keySort_filter (fun d : Decision => -d.calculated_discount) (-v)
    (fun d : Decision => d.calculated_discount == v) (fun x => by simp [neg_inj]) _

theorem evalCoupon_some {cart : Cart} {c : Coupon} {d : Decision}
    (h : evalCoupon cart c = some d) :
    d.coupon = c ∧ d.calculated_discount = couponDiscount cart c.details ∧
      (0 < d.calculated_discount ∨
        ∃ t pct mx, c.details = .cartWise t pct mx ∧ t ≤ cartTotal cart) := by
  unfold evalCoupon at h
  split at h
  · rename_i t pct mx heq
    split at h
    · cases h
      refine ⟨rfl, by simp [couponDiscount, heq], Or.inr ⟨t, pct, mx, heq, by assumption⟩⟩
    · cases h
  · rename_i ids pct mq heq
    simp only at h
    split at h
    · cases h
      exact ⟨rfl, by simp [couponDiscount, heq], Or.inl (by assumption)⟩
    · cases h
  · rename_i bp bq gp gq pct rep heq
    simp only at h
    split at h
    · cases h
      exact ⟨rfl, by simp [couponDiscount, heq], Or.inl (by assumption)⟩
    · cases h

/-! ### Product-wise helper lemmas -/

theorem productWiseDiscount_append (cart : Cart) (ids₁ ids₂ : List String)
    (pct : ℚ) (mq : Option ℤ) :
    productWiseDiscount cart (ids₁ ++ ids₂) pct mq =
      productWiseDiscount cart ids₁ pct mq +
        productWiseDiscount cart ids₂ pct mq := by
  unfold productWiseDiscount
  rw [List.map_append, List.sum_append]

theorem productContrib_zero_of_not_qualifying {cart : Cart} {pct : ℚ}
    {mq : Option ℤ} {pid : String}
    (h : cartLookup cart pid = none ∨
      ∃ item, cartLookup cart pid = some item ∧ item.quantity < mq.getD 1) :
    productContrib cart pct mq pid = 0 := by
  unfold productContrib
  rcases h with h | ⟨item, hfind, hlt⟩
  · rw [h]
  · rw [hfind]
    simp only
    rw [if_neg (by omega)]

theorem productWiseDiscount_count (cart : Cart) (ids : List String)
    (pct : ℚ) (mq : Option ℤ) (p : String) :
    productWiseDiscount cart ids pct mq =
      (ids.count p : ℚ) * productContrib cart pct mq p +
        productWiseDiscount cart (ids.filter (fun q => q ≠ p)) pct mq := by
  induction ids with
  | nil => simp [productWiseDiscount]
  | cons a t ih =>
      have hstep : ∀ l : List String, productWiseDiscount cart (a :: l) pct mq =
          productContrib cart pct mq a + productWiseDiscount cart l pct mq := by
        intro l
        simp [productWiseDiscount]
      by_cases hap : a = p
      · subst hap
        have hcount : (((a :: t).count a : ℕ) : ℚ) = ((t.count a : ℕ) : ℚ) + 1 := by
          simp [List.count_cons]
        have hfilter : (a :: t).filter (fun q => q ≠ a) = t.filter (fun q => q ≠ a) := by
          simp [List.filter_cons]
        rw [hstep, hcount, hfilter, ih]
        ring
      · have hcount : (((a :: t).count p : ℕ) : ℚ) = ((t.count p : ℕ) : ℚ) := by
          simp [List.count_cons, hap]
        have hfilter : (a :: t).filter (fun q => q ≠ p) = a :: t.filter (fun q => q ≠ p) := by
          simp [List.filter_cons, hap]
        rw [hstep, hcount, hfilter, ih, hstep]
        ring

/-! ### Claim theorems -/

/-- Claim C1: for every cart and cart-threshold coupon, the coupon is
appended as applicable iff `cart_total ≥ threshold` (inclusive), the
discount is `min(total * pct/100, max_discount)` when `max_discount` is
set and exactly `total * pct/100` when absent, and the discount is `0`
below the threshold. -/
theorem claim_C1_cart_threshold (cart : Cart) (c : Coupon) (t pct : ℚ)
    (mx : Option ℚ) (hc : c.details = .cartWise t pct mx) :
    ((evalCoupon cart c).isSome ↔ t ≤ cartTotal cart) ∧
    (∀ m, mx = some m → t ≤ cartTotal cart →
      couponDiscount cart c.details = min (cartTotal cart * (pct / 100)) m) ∧
    (mx = none → t ≤ cartTotal cart →
      couponDiscount cart c.details = cartTotal cart * (pct / 100)) ∧
    (cartTotal cart < t → couponDiscount cart c.details = 0) := by
  have hD : couponDiscount cart c.details =
      cartWiseDiscount (cartTotal cart) t pct mx := by rw [hc]; rfl
  refine ⟨?_, ?_, ?_, ?_⟩
  · unfold evalCoupon
    rw [hc]
    split <;> simp_all
  · intro m hm h
    rw [hD, hm]
    simp only [cartWiseDiscount, if_pos h]
  · intro hm h
    rw [hD, hm]
    simp only [cartWiseDiscount, if_pos h]
  · intro h
    rw [hD]
    simp only [cartWiseDiscount, if_neg (not_le.mpr h)]

def w1Cart : Cart := [⟨"p1", 1, 50, 50⟩]

def w1Coupon : Coupon := ⟨"CW1", .cartWise 40 20 (some 5), true, 0, none, none⟩

theorem claim_C1_witness :
    (evalCoupon w1Cart w1Coupon).isSome = true ∧
      couponDiscount w1Cart w1Coupon.details = 5 := by
  have h := claim_C1_cart_threshold w1Cart w1Coupon 40 20 (some 5) rfl
  have htot : (40:ℚ) ≤ cartTotal w1Cart := by
    simp [cartTotal, w1Cart]
    norm_num
  refine ⟨h.1.mpr htot, ?_⟩
  rw [h.2.1 5 rfl htot]
  have : cartTotal w1Cart = 50 := by simp [cartTotal, w1Cart]
  rw [this]
  norm_num

/-- The ordering the spec claims for the Buy-Get candidates: strictly
ascending price with ties broken by ascending product id. -/
def sortedByPriceThenId (l : List GetCand) : Prop :=
  l.Chain' (fun a b =>
    a.price < b.price ∨ (a.price = b.price ∧ a.product_id < b.product_id))

def c2Cart : Cart := [⟨"b", 1, 5, 5⟩, ⟨"a", 1, 5, 5⟩]

/-- Claim C2, counterexample: two coupons whose get-candidate sets hold
the same entries produce different allocation orders, and the sorted list
does not break the price tie by product id — Python's sort is by price
only, keeping insertion order on ties. -/
theorem claim_C2_counterexample :
    (eligibleGetProducts c2Cart ["b", "a"]).Perm
        (eligibleGetProducts c2Cart ["a", "b"]) ∧
    sortGetCands (eligibleGetProducts c2Cart ["b", "a"]) ≠
      sortGetCands (eligibleGetProducts c2Cart ["a", "b"]) ∧
    ¬ sortedByPriceThenId (sortGetCands (eligibleGetProducts c2Cart ["b", "a"])) := by
  have hba : eligibleGetProducts c2Cart ["b", "a"] = [⟨"b", 1, 5⟩, ⟨"a", 1, 5⟩] := by
    simp [eligibleGetProducts, firstDedup, c2Cart, cartLookup_cons, cartLookup_nil,
      List.filterMap_cons]
  have hab : eligibleGetProducts c2Cart ["a", "b"] = [⟨"a", 1, 5⟩, ⟨"b", 1, 5⟩] := by
    simp [eligibleGetProducts, firstDedup, c2Cart, cartLookup_cons, cartLookup_nil,
      List.filterMap_cons]
  have hsba : sortGetCands [(⟨"b", 1, 5⟩ : GetCand), ⟨"a", 1, 5⟩] =
      [⟨"b", 1, 5⟩, ⟨"a", 1, 5⟩] := by
    simp [sortGetCands, keySort, keyInsert]
  have hsab : sortGetCands [(⟨"a", 1, 5⟩ : GetCand), ⟨"b", 1, 5⟩] =
      [⟨"a", 1, 5⟩, ⟨"b", 1, 5⟩] := by
    simp [sortGetCands, keySort, keyInsert]
  refine ⟨?_, ?_, ?_⟩
  · rw [hba, hab]
    exact List.Perm.swap _ _ _
  · rw [hba, hab, hsba, hsab]
    simp
  · rw [hba, hsba]
    unfold sortedByPriceThenId
    intro hch
    rcases (List.chain'_cons.mp hch).1 with hlt | ⟨heq, hid⟩
    · exact absurd hlt (by norm_num)
    · revert hid
      simp [String.lt_iff_toList_lt]
      decide

/-- Claim C2 as amended: the get-candidates are sorted ascending by unit
price with ties kept in first-occurrence order of the coupon's
`get_products` list (a stable sort), so for a fixed candidate list the
allocation order and discount are deterministic: the sorted list is a
permutation of the candidates, is pairwise ascending in price, and
restricting to any one price value preserves the original order. -/
theorem claim_C2_amended (cart : Cart) (gp : List String) :
    (sortGetCands (eligibleGetProducts cart gp)).Perm
        (eligibleGetProducts cart gp) ∧
    (sortGetCands (eligibleGetProducts cart gp)).Pairwise
        (fun a b => a.price ≤ b.price) ∧
    ∀ v : ℚ, (sortGetCands (eligibleGetProducts cart gp)).filter
        (fun c => c.price == v) =
      (eligibleGetProducts cart gp).filter (fun c => c.price == v) :=
  ⟨keySort_perm _ _, keySort_pairwise _ _,
    fun v => keySort_filter (fun c : GetCand => c.price) v
      (fun c : GetCand => c.price == v) (fun x => by simp) _⟩

def c3Cart : Cart := [⟨"p1", 2, 10, 20⟩]

/-- Claim C3, failing input: a Buy-Get coupon with `repetition_limit = 0`
still yields discount 20 on this cart, because
`if details.get("repetition_limit"):` treats the stored `0` as false and
skips the cap; the spec requires discount 0. -/
theorem claim_C3_failing_input :
    bxgyDiscount c3Cart ["p1"] 1 ["p1"] 1 100 (some 0) = 20 ∧ (20:ℚ) ≠ 0 := by
  constructor
  · simp [bxgyDiscount, eligibleGetProducts, eligibleBuyQuantities, firstDedup,
      cartLookup_cons, cartLookup_nil, buyUnits, sortGetCands, keySort, keyInsert,
      bxgyAlloc, Int.fdiv, c3Cart]
    norm_num [bxgyAlloc]
  · norm_num

/-- Claim C4: for every cart and per-product coupon, the discount is the
sum over the coupon's `product_ids` of `subtotal * pct/100` for exactly
the listed products present with `quantity ≥ min_quantity`; a listed
product that is absent or below `min_quantity` contributes zero without
disqualifying the coupon, and the coupon is applicable iff the sum is
strictly positive. -/
theorem claim_C4_per_product (cart : Cart) (c : Coupon) (ids : List String)
    (pct : ℚ) (mq : Option ℤ) (hc : c.details = .productWise ids pct mq) :
    ((evalCoupon cart c).isSome ↔ 0 < productWiseDiscount cart ids pct mq) ∧
    couponDiscount cart c.details =
      (ids.map (fun pid =>
        match cartLookup cart pid with
        | some item =>
            if mq.getD 1 ≤ item.quantity then item.subtotal * (pct / 100) else 0
        | none => 0)).sum ∧
    (∀ p, (cartLookup cart p = none ∨
        ∃ item, cartLookup cart p = some item ∧ item.quantity < mq.getD 1) →
      productWiseDiscount cart (ids ++ [p]) pct mq =
        productWiseDiscount cart ids pct mq) := by
  refine ⟨?_, ?_, ?_⟩
  · unfold evalCoupon
    rw [hc]
    simp only
    split <;> simp_all
  · rw [hc]
    rfl
  · intro p hp
    rw [productWiseDiscount_append]
    have hz := @productContrib_zero_of_not_qualifying cart pct mq p hp
    simp [productWiseDiscount, hz]

def w4Cart : Cart :=
  [⟨"p123", 2, 50, 100⟩, ⟨"p456", 1, 30, 30⟩, ⟨"p789", 1, 20, 20⟩]

def w4Coupon : Coupon :=
  ⟨"PROD15", .productWise ["p123", "p456"] 15 (some 2), true, 0, none, none⟩

theorem claim_C4_witness :
    (evalCoupon w4Cart w4Coupon).isSome = true ∧
      couponDiscount w4Cart w4Coupon.details = 15 := by
  have h := claim_C4_per_product w4Cart w4Coupon ["p123", "p456"] 15 (some 2) rfl
  have hval : productWiseDiscount w4Cart ["p123", "p456"] 15 (some 2) = 15 := by
    simp [productWiseDiscount, productContrib, w4Cart, cartLookup_cons, cartLookup_nil]
    norm_num
  constructor
  · exact h.1.mpr (by rw [hval]; norm_num)
  · show couponDiscount w4Cart w4Coupon.details = 15
    exact hval

/-- Claim C5: in every Buy-Get allocation the running `units_discounted`
never exceeds `total_get_units` — from any loop state with
`units_discounted ≤ total_get_units` the loop only grows the counter and
keeps it at most `total_get_units` — and a single candidate contributes at
most `min(available_quantity, total_get_units - units_discounted)`
units. -/
theorem claim_C5_alloc_bound (pct : ℚ) (total_get_units : ℤ)
    (cs : List GetCand) :
    (∀ ud : ℤ, ∀ d : ℚ, ud ≤ total_get_units →
      ud ≤ (bxgyAlloc pct total_get_units cs ud d).2 ∧
      (bxgyAlloc pct total_get_units cs ud d).2 ≤ total_get_units) ∧
    (∀ c : GetCand, ∀ ud : ℤ, ∀ d : ℚ, 0 ≤ c.quantity → ud ≤ total_get_units →
      (bxgyAlloc pct total_get_units [c] ud d).2 ≤
        ud + min c.quantity (total_get_units - ud)) := by
  constructor
  · intro ud d h
    have h2 := bxgyAlloc_units pct total_get_units cs ud d h
    exact ⟨h2.2, h2.1⟩
  · intro c ud d hq hud
    simp only [bxgyAlloc]
    split
    · split
      · simp
      · simp [bxgyAlloc]
    · rename_i hneg
      simp only [bxgyAlloc]
      omega

def w5Cands : List GetCand := [⟨"p1", 3, 2⟩, ⟨"p2", 4, 7⟩]

theorem claim_C5_witness :
    (bxgyAlloc 100 5 w5Cands 0 0).2 ≤ 5 ∧
      (bxgyAlloc 100 5 [⟨"p1", 3, 2⟩] 0 0).2 ≤ 0 + min 3 (5 - 0) := by
  have h := claim_C5_alloc_bound 100 5 w5Cands
  refine ⟨(h.1 0 0 (by norm_num)).2, ?_⟩
  have h2 := (claim_C5_alloc_bound 100 5 w5Cands).2 ⟨"p1", 3, 2⟩ 0 0 (by norm_num)
    (by norm_num)
  exact h2

def c6Cart : Cart := [⟨"p1", 0, 5, 0⟩]

def c6Coupon : Coupon := ⟨"CW6", .cartWise 0 20 none, true, 0, none, none⟩

/-- Claim C6, counterexample: on a cart holding one zero-quantity line
(total 0) a cart-wise coupon with threshold 0 is returned with
`calculated_discount = 0`, so the listing does not contain only decisions
with a strictly positive discount. -/
theorem claim_C6_counterexample :
    get_applicable_coupons c6Cart [c6Coupon] = [⟨c6Coupon, 0⟩] ∧
    ¬ (∀ d ∈ get_applicable_coupons c6Cart [c6Coupon],
        0 < d.calculated_discount) := by
  have h : get_applicable_coupons c6Cart [c6Coupon] = [⟨c6Coupon, 0⟩] := by
    have htot : cartTotal c6Cart = 0 := by simp [cartTotal, c6Cart]
    have heval : evalCoupon c6Cart c6Coupon = some ⟨c6Coupon, 0⟩ := by
      simp only [evalCoupon, c6Coupon, htot]
      norm_num [cartWiseDiscount]
    unfold get_applicable_coupons
    rw [if_neg (by simp [c6Cart])]
    simp [heval, sortDecisions, keySort, keyInsert]
  refine ⟨h, fun hall => ?_⟩
  have := hall ⟨c6Coupon, 0⟩ (by rw [h]; exact List.mem_singleton_self _)
  simp at this

/-- Claim C6 as amended: on a nonempty cart the listing returns exactly
the decisions the per-coupon evaluation produces — which for product-wise
and Buy-Get coupons means discount > 0, but for cart-wise coupons means
only `total ≥ threshold`, so a zero (or nonpositive) cart-wise discount
can be returned — sorted by `calculated_discount` descending, and the
sort is stable: decisions with equal discounts keep their original
order. -/
theorem claim_C6_amended (cart : Cart) (coupons : List Coupon)
    (hcart : cart ≠ []) :
    (get_applicable_coupons cart coupons).Perm
        (coupons.filterMap (evalCoupon cart)) ∧
    (get_applicable_coupons cart coupons).Pairwise
        (fun a b => b.calculated_discount ≤ a.calculated_discount) ∧
    (∀ v : ℚ, (get_applicable_coupons cart coupons).filter
        (fun d => d.calculated_discount == v) =
      (coupons.filterMap (evalCoupon cart)).filter
        (fun d => d.calculated_discount == v)) ∧
    (∀ d ∈ get_applicable_coupons cart coupons,
      0 < d.calculated_discount ∨
        ∃ t pct mx, d.coupon.details = .cartWise t pct mx ∧
          t ≤ cartTotal cart ∧
          d.calculated_discount = cartWiseDiscount (cartTotal cart) t pct mx) := by
  refine ⟨get_applicable_coupons_perm cart coupons hcart,
    get_applicable_coupons_sorted cart coupons,
    get_applicable_coupons_stable cart coupons hcart, ?_⟩
  intro d hd
  have hmem : d ∈ coupons.filterMap (evalCoupon cart) :=
    (get_applicable_coupons_perm cart coupons hcart).mem_iff.mp hd
  obtain ⟨c, -, hc⟩ := List.mem_filterMap.mp hmem
  obtain ⟨hcoupon, hdisc, hcases⟩ := evalCoupon_some hc
  rcases hcases with hpos | ⟨t, pct, mx, hdet, hthr⟩
  · exact Or.inl hpos
  · refine Or.inr ⟨t, pct, mx, by rw [hcoupon]; exact hdet, hthr, ?_⟩
    rw [hdisc, hdet]
    rfl

def w6Cart : Cart := [⟨"p1", 1, 10, 10⟩]

def w6CouponA : Coupon := ⟨"CW6A", .cartWise 0 10 none, true, 0, none, none⟩

def w6CouponB : Coupon := ⟨"CW6B", .cartWise 0 50 none, true, 0, none, none⟩

theorem claim_C6_witness :
    (get_applicable_coupons w6Cart [w6CouponA, w6CouponB]).Pairwise
        (fun a b => b.calculated_discount ≤ a.calculated_discount) ∧
    (get_applicable_coupons w6Cart [w6CouponA, w6CouponB]).Perm
        ([w6CouponA, w6CouponB].filterMap (evalCoupon w6Cart)) := by
  have h := claim_C6_amended w6Cart [w6CouponA, w6CouponB] (by simp [w6Cart])
  exact ⟨h.2.1, h.1⟩

/-- Claim C7: for a coupon registered as exclusive for the customer with
counter `u`, the apply call fails with UsageExhausted whenever `u ≤ 0`
even though the recomputed discount is strictly positive (and every other
check passes), and every successful apply has `u > 0` and reports the
counter decremented by exactly one. -/
theorem claim_C7_exclusive (cart : Cart) (excl : List (String × ℤ))
    (tier : String) (now : ℤ) (c : Coupon) (u : ℤ)
    (hu : lookupUsage excl c.coupon_id = some u) :
    (u ≤ 0 → passesPreChecks tier now c → cart ≠ [] →
      0 < couponDiscount cart c.details →
      apply_coupon cart excl tier now c = .error .usageExhausted) ∧
    (∀ r, apply_coupon cart excl tier now c = .ok r →
      0 < u ∧ r.new_usage = some (u - 1)) := by
  constructor
  · intro hexh hpre hcart hdisc
    exact apply_coupon_usage_exhausted hpre hcart hdisc hu hexh
  · intro r hok
    have h := apply_coupon_ok hok
    refine ⟨h.2.2.2.2.2.2 u hu, ?_⟩
    rw [h.2.2.2.2.2.1, hu]
    rfl

def w7Cart : Cart := [⟨"p1", 1, 10, 10⟩]

def w7Coupon : Coupon := ⟨"EX7", .cartWise 0 10 none, true, 0, none, none⟩

theorem claim_C7_witness :
    apply_coupon w7Cart [("EX7", 0)] "Basic" 5 w7Coupon =
      .error .usageExhausted := by
  have h := claim_C7_exclusive w7Cart [("EX7", 0)] "Basic" 5 w7Coupon 0
    (by simp [lookupUsage_cons, w7Coupon])
  apply h.1 le_rfl
  · exact ⟨rfl, by norm_num [w7Coupon], rfl, by simp [w7Coupon]⟩
  · simp [w7Cart]
  · have : cartTotal w7Cart = 10 := by simp [cartTotal, w7Cart]
    simp only [w7Coupon, couponDiscount, cartWiseDiscount, this]
    norm_num

def c8Coupon : Coupon := ⟨"CW8", .cartWise 0 20 none, true, 0, none, some ["Gold"]⟩

/-- Claim C8, counterexample: with an empty cart but a tier-restricted
coupon, apply fails with the tier rejection, not EmptyCart — the tier and
validity checks run before the cart check. -/
theorem claim_C8_counterexample :
    apply_coupon [] [] "Basic" 5 c8Coupon = .error .tierIneligible ∧
    RejectReason.tierIneligible ≠ RejectReason.emptyCart := by
  constructor
  · unfold apply_coupon
    rw [if_neg (by simp [c8Coupon]), if_neg (by simp [c8Coupon]),
      if_pos (by simp [c8Coupon])]
  · simp

/-- Claim C8 as amended: an empty cart makes every strategy inapplicable:
the listing returns `[]` without error, and apply on an empty cart never
succeeds; it fails with EmptyCart exactly when the coupon passes the
activity, validity-window and tier checks (otherwise the corresponding
earlier rejection is surfaced instead). -/
theorem claim_C8_amended (coupons : List Coupon) (excl : List (String × ℤ))
    (tier : String) (now : ℤ) (c : Coupon) :
    get_applicable_coupons [] coupons = [] ∧
    (∀ r, apply_coupon [] excl tier now c ≠ .ok r) ∧
    (passesPreChecks tier now c →
      apply_coupon [] excl tier now c = .error .emptyCart) :=
  ⟨rfl, fun r => apply_coupon_empty_cart_never_ok excl tier now c r,
    fun hpre => apply_coupon_empty_cart hpre⟩

def w8Coupon : Coupon := ⟨"CW8W", .cartWise 0 20 none, true, 0, none, none⟩

theorem claim_C8_witness :
    get_applicable_coupons [] [w8Coupon] = [] ∧
      apply_coupon [] [] "Basic" 5 w8Coupon = .error .emptyCart := by
  have h := claim_C8_amended [w8Coupon] [] "Basic" 5 w8Coupon
  exact ⟨h.1, h.2.2 ⟨rfl, by norm_num [w8Coupon], rfl, by simp [w8Coupon]⟩⟩

/-- Claim C9: for every well-formed cart (stored subtotal equals
`quantity * price`, nonnegative quantities and prices, distinct product
ids) and every coupon obeying the data-model invariant (percentage in
`(0,100]`, duplicate-free product lists), the discount of a successful
apply never exceeds the cart total, so the reported final total is
nonnegative. -/
theorem claim_C9_discount_bounded (cart : Cart) (excl : List (String × ℤ))
    (tier : String) (now : ℤ) (c : Coupon) (r : ApplyResult)
    (hw : WFCart cart) (hd : WFDetails c.details)
    (hok : apply_coupon cart excl tier now c = .ok r) :
    r.discount_amount ≤ cartTotal cart ∧
    r.final_total = r.original_total - r.discount_amount ∧
    0 ≤ r.final_total := by
  have h := apply_coupon_ok hok
  have hle := couponDiscount_le_total hw hd
  refine ⟨?_, ?_, ?_⟩
  · rw [h.1]
    exact hle
  · rw [h.1, h.2.1, h.2.2.1]
  · rw [h.2.2.1]
    linarith

def w9Cart : Cart := [⟨"p1", 2, 50, 100⟩]

def w9Coupon : Coupon := ⟨"CW9", .cartWise 50 20 (some 10), true, 0, none, none⟩

theorem claim_C9_witness :
    (10:ℚ) ≤ cartTotal w9Cart ∧ (90:ℚ) = 100 - 10 ∧ (0:ℚ) ≤ 90 := by
  have hw : WFCart w9Cart := by
    constructor
    · intro item h
      simp only [w9Cart, List.mem_singleton] at h
      subst h
      norm_num
    · simp [w9Cart]
  have hd : WFDetails w9Coupon.details := by
    simp only [w9Coupon, WFDetails]
    norm_num
  have hok : apply_coupon w9Cart [] "Basic" 5 w9Coupon =
      .ok ⟨"CW9", 10, 100, 90, none⟩ := by
    simp [apply_coupon, w9Coupon, w9Cart, couponDiscount, cartWiseDiscount,
      cartTotal, lookupUsage]
    norm_num
  have h := claim_C9_discount_bounded w9Cart [] "Basic" 5 w9Coupon
    ⟨"CW9", 10, 100, 90, none⟩ hw hd hok
  exact ⟨h.1, h.2.1, h.2.2⟩

/-- Claim C10: the per-product evaluation iterates the `product_ids`
list, so a product id occurring `k` times contributes `k` times its
single contribution to the discount. -/
theorem claim_C10_duplicates (cart : Cart) (c : Coupon) (ids : List String)
    (pct : ℚ) (mq : Option ℤ) (p : String) (k : ℕ)
    (hc : c.details = .productWise ids pct mq) (hk : ids.count p = k) :
    couponDiscount cart c.details =
      (k : ℚ) * productContrib cart pct mq p +
        productWiseDiscount cart (ids.filter (fun q => q ≠ p)) pct mq := by
  have hD : couponDiscount cart c.details =
      productWiseDiscount cart ids pct mq := by rw [hc]; rfl
  rw [hD, ← hk]
  exact productWiseDiscount_count cart ids pct mq p

def w10Cart : Cart := [⟨"a", 1, 5, 5⟩]

def w10Coupon : Coupon := ⟨"P10", .productWise ["a", "a"] 10 none, true, 0, none, none⟩

theorem claim_C10_witness :
    couponDiscount w10Cart w10Coupon.details =
      (2:ℚ) * productContrib w10Cart 10 none "a" +
        productWiseDiscount w10Cart (["a", "a"].filter (fun q => q ≠ "a")) 10 none ∧
    couponDiscount w10Cart w10Coupon.details = 1 := by
  have h := claim_C10_duplicates w10Cart w10Coupon ["a", "a"] 10 none "a" 2 rfl
    (by rfl)
  constructor
  · exact_mod_cast h
  · have h2 : couponDiscount w10Cart w10Coupon.details =
        productWiseDiscount w10Cart ["a", "a"] 10 none := rfl
    rw [h2]
    simp [productWiseDiscount, productContrib, cartLookup_cons, cartLookup_nil,
      w10Cart]
    norm_num
